import Mathlib

/-!
Verification of the command-line argument parser in `scripts/flags.js`
(repository tvarney/bitburner-scripts).

The development is a shallow embedding of the parser: every definition below
is translated from the JavaScript source.  JavaScript numbers are modelled as
`JNum` (either `nan` or a rational value); JavaScript runtime values held in
the parsed-flags object are modelled by `JSVal`; the raw argument tokens
(which Bitburner may pre-parse into numbers or booleans) are modelled by
`Arg`.  JavaScript objects used as string-keyed maps are modelled as
association lists with in-place overwrite (`objSet`), which preserves the
key insertion order of a JS object.  All errors thrown by the source are
`new Error(msg)` values; they are modelled by the inductive `ParseError`,
whose constructors record the data interpolated into the message.
-/

namespace Flags

/-- Model of a JavaScript number: either `NaN` or a (finite) rational value.
The source never produces infinities, so they are not modelled. -/
inductive JNum where
  | nan : JNum
  | val (q : ℚ) : JNum
deriving DecidableEq, Repr

/-- Model of the JavaScript runtime values that appear in the parsed flag
data object and in argument vectors: `null`, `undefined`, booleans, numbers
and strings. -/
inductive JSVal where
  | vNull : JSVal
  | vUndef : JSVal
  | vBool (b : Bool) : JSVal
  | vNum (n : JNum) : JSVal
  | vStr (s : String) : JSVal
deriving DecidableEq, Repr

/-- Model of a raw command-line token as delivered by Bitburner: the host
pre-parses tokens, so a token may arrive as a string, a number or a boolean
(`(string|number|boolean)[]` in the source).  Numeric tokens are modelled as
integers, which covers every numeric token the repository scripts receive. -/
inductive Arg where
  | str (s : String) : Arg
  | num (z : Int) : Arg
  | bool (b : Bool) : Arg
deriving DecidableEq, Repr

/-- Model of JavaScript `.toString()` on a token, used by `parseRaw` to
normalize every token before matching (`args[i].toString()`). -/
def Arg.toString : Arg → String
  | .str s => s
  | .num z => z.repr
  | .bool b => cond b "true" "false"

/-- Characters treated as whitespace by the JavaScript numeric conversions
modelled below. -/
def isJsWhitespace (c : Char) : Bool :=
  c == ' ' || c == '\t' || c == '\n' || c == '\r'

/-- Read an optional leading sign, returning whether the value is negated
together with the remaining characters. -/
def parseSign : List Char → Bool × List Char
  | '-' :: cs => (true, cs)
  | '+' :: cs => (false, cs)
  | cs => (false, cs)

/-- Numeric value of a list of decimal digit characters. -/
def digitsToNat (ds : List Char) : Nat :=
  ds.foldl (fun a c => a * 10 + (c.toNat - '0'.toNat)) 0

/-- Apply a parsed sign to a rational value. -/
def applySign (neg : Bool) (q : ℚ) : ℚ :=
  if neg then -q else q

/-- Read a longest prefix of `cs` shaped like an unsigned decimal literal
(digits with an optional fractional part); returns the value and the
remaining characters, or `none` when no digit is present. -/
def parseDecCore (cs : List Char) : Option (ℚ × List Char) :=
  let ip := cs.takeWhile Char.isDigit
  let cs1 := cs.dropWhile Char.isDigit
  match cs1 with
  | '.' :: cs2 =>
    let fp := cs2.takeWhile Char.isDigit
    let cs3 := cs2.dropWhile Char.isDigit
    if ip.isEmpty && fp.isEmpty then none
    else some (mkRat (digitsToNat ip * 10 ^ fp.length + digitsToNat fp) (10 ^ fp.length), cs3)
  | _ => if ip.isEmpty then none else some (mkRat (digitsToNat ip) 1, cs1)

/-- Model of JavaScript `parseFloat` restricted to plain decimal literals:
skip leading whitespace, read an optional sign and the longest decimal
prefix; `NaN` when no digit is found.  (Exponents and `Infinity` are not
modelled; no literal in this repository uses them.) -/
def parseFloat (s : String) : JNum :=
  let cs := s.data.dropWhile isJsWhitespace
  let (neg, cs1) := parseSign cs
  match parseDecCore cs1 with
  | none => .nan
  | some (q, _) => .val (applySign neg q)

/-- Model of JavaScript `parseInt` with the default radix: skip leading
whitespace, read an optional sign and the longest digit prefix; `NaN` when
no digit is found.  (The `0x` radix prefix is not modelled; no literal in
this repository uses it.) -/
def parseInt (s : String) : JNum :=
  let cs := s.data.dropWhile isJsWhitespace
  let (neg, cs1) := parseSign cs
  let ds := cs1.takeWhile Char.isDigit
  if ds.isEmpty then .nan else .val (applySign neg (mkRat (digitsToNat ds) 1))

/-- Model of the JavaScript `Number(string)` conversion: trimmed empty
string is `0`; otherwise the whole string must be a signed decimal literal,
else `NaN`. -/
def jsStringToNumber (s : String) : JNum :=
  let cs := ((s.data.dropWhile isJsWhitespace).reverse.dropWhile isJsWhitespace).reverse
  if cs.isEmpty then .val 0
  else
    let (neg, cs1) := parseSign cs
    match parseDecCore cs1 with
    | some (q, []) => .val (applySign neg q)
    | _ => .nan

/-- Model of the JavaScript `Number(x)` conversion on the values that can
occur in the flag data object. -/
def jsToNumber : JSVal → JNum
  | .vNull => .val 0
  | .vUndef => .nan
  | .vBool b => .val (cond b 1 0)
  | .vNum n => n
  | .vStr s => jsStringToNumber s

/-- JavaScript addition on numbers: `NaN` is absorbing. -/
def jnAdd : JNum → JNum → JNum
  | .val a, .val b => .val (a + b)
  | _, _ => .nan

/-- Set `m[k] = v` on a JavaScript object modelled as an association list:
overwrite in place when the key exists (preserving insertion order),
otherwise append the new key. -/
def objSet {κ α : Type} [DecidableEq κ] : List (κ × α) → κ → α → List (κ × α)
  | [], k, v => [(k, v)]
  | (k', v') :: rest, k, v =>
    if k' = k then (k, v) :: rest else (k', v') :: objSet rest k v

/-- Read `m[k]` on a JavaScript object modelled as an association list. -/
def objGet? {κ α : Type} [DecidableEq κ] : List (κ × α) → κ → Option α
  | [], _ => none
  | (k', v') :: rest, k => if k' = k then some v' else objGet? rest k

/-- The errors thrown by `flags.js`.  Every error in the source is a
`new Error(msg)`; each constructor records the data interpolated into the
corresponding message:
`unknownLong name` for `"unknown long option --<name>"`,
`unknownShort c` for `"unknown short option -<c> - available…"`,
`tooFewArgs name` for `"too few arguments to flag --<name>"`, and
`missingAccumulate` for `"missing accumulate value"` thrown by the Number
and Integer parsers.  `outOfFuel` is an artifact of the embedding of the
`while` loop (see `parseLoop`); it is unreachable because every iteration
consumes at least one token and `parseRaw` supplies `length + 1` fuel. -/
inductive ParseError where
  | unknownLong (name : String) : ParseError
  | unknownShort (c : Char) : ParseError
  | tooFewArgs (name : String) : ParseError
  | missingAccumulate : ParseError
  | outOfFuel : ParseError
deriving DecidableEq, Repr

/-- The concrete `FlagArgParser` implementations of the source as a closed
sum: `StringParser`, `NumberParser`, `IntegerParser`, `CounterParser`. -/
inductive FlagArgParser where
  | stringP : FlagArgParser
  | numberP : FlagArgParser
  | integerP : FlagArgParser
  | counterP : FlagArgParser
deriving DecidableEq, Repr

/-- The `args()` method of each parser variant: 1 for String, Number and
Integer, 0 for Counter. -/
def FlagArgParser.args : FlagArgParser → Nat
  | .stringP => 1
  | .numberP => 1
  | .integerP => 1
  | .counterP => 0

/-- The `initialValue(val)` method of each parser variant, applied to the
default literal of the flag (`null` when no default was set).
String returns the literal (or null); Number returns null on `val == null`
else `parseFloat(val)`; Integer returns null on falsy `val` (null or the
empty string) else `parseInt(val)`; Counter returns 0 on falsy `val` else
`parseInt(val)`.  The try/catch blocks of the source are dead code because
`parseFloat`/`parseInt` never throw. -/
def FlagArgParser.initialValue : FlagArgParser → Option String → JSVal
  | .stringP, none => .vNull
  | .stringP, some s => .vStr s
  | .numberP, none => .vNull
  | .numberP, some s => .vNum (parseFloat s)
  | .integerP, none => .vNull
  | .integerP, some s => if s = "" then .vNull else .vNum (parseInt s)
  | .counterP, none => .vNum (.val 0)
  | .counterP, some s => if s = "" then .vNum (.val 0) else .vNum (parseInt s)

/-- The `accumulate(current, ...args)` method of each parser variant.
String returns `args[0]` (JavaScript `undefined` when no argument was
passed); Number and Integer throw `Error("missing accumulate value")` when
`args[0]` is falsy (absent or the empty string) and otherwise return
`parseFloat(args[0])` / `parseInt(args[0])` — which is `NaN`, not an error,
on non-numeric text; Counter returns `Number(current) + 1`. -/
def FlagArgParser.accumulate : FlagArgParser → JSVal → List String → Except ParseError JSVal
  | .stringP, _, args =>
    .ok (match args.head? with | some a => .vStr a | none => .vUndef)
  | .numberP, _, args =>
    match args.head? with
    | none => .error .missingAccumulate
    | some a => if a = "" then .error .missingAccumulate else .ok (.vNum (parseFloat a))
  | .integerP, _, args =>
    match args.head? with
    | none => .error .missingAccumulate
    | some a => if a = "" then .error .missingAccumulate else .ok (.vNum (parseInt a))
  | .counterP, current, _ => .ok (.vNum (jnAdd (jsToNumber current) (.val 1)))

/-- The `Flag` class of the source.  The `_parser` member is named `_argp`
here; the `_action` member (a zero-argument side-effect callback, e.g.
printing help) is omitted because it never influences the data returned by
`parseRaw` — the embedding models the data flow only. -/
structure Flag where
  _short : Option Char
  _long : String
  _help : Option String
  _argp : Option FlagArgParser
  _default : Option String
  _forceExit : Bool
deriving DecidableEq, Repr

/-- The `Flag` constructor: `new Flag(name, parser)`. -/
def Flag.new (name : String) (p : Option FlagArgParser) : Flag :=
  ⟨none, name, none, p, none, false⟩

/-- `Flag.shortOpt(ch)`: `this._short = (ch.length == 0) ? null : ch[0]`.
The source returns `this` for chaining; the embedding returns the updated
flag, and the theorems about it state that every other field is unchanged. -/
def Flag.shortOpt (f : Flag) (ch : String) : Flag :=
  { f with _short := match ch.data with | [] => none | c :: _ => some c }

/-- `Flag.default(val)`. -/
def Flag.default (f : Flag) (val : Option String) : Flag :=
  { f with _default := val }

/-- `Flag.forceExit(on)`. -/
def Flag.forceExit (f : Flag) (b : Bool) : Flag :=
  { f with _forceExit := b }

/-- `Flag.help(msg)`. -/
def Flag.help (f : Flag) (msg : Option String) : Flag :=
  { f with _help := msg }

/-- `Flag.args()`: `this._parser == null ? 0 : this._parser.args()`. -/
def Flag.args (f : Flag) : Nat :=
  match f._argp with
  | none => 0
  | some p => p.args

/-- `Flag.initialValue()`: defer to the parser with the default literal, or
`false` for a parser-less boolean flag. -/
def Flag.initialValue (f : Flag) : JSVal :=
  match f._argp with
  | none => .vBool false
  | some p => p.initialValue f._default

/-- `Flag.accumulate(data, ...args)`: with a parser, look up the existing
value (`null` when the key is absent) and store the accumulated result;
without a parser, set the value to `true`. -/
def Flag.accumulate (f : Flag) (data : List (String × JSVal)) (args : List String) :
    Except ParseError (List (String × JSVal)) :=
  match f._argp with
  | some p =>
    match p.accumulate ((objGet? data f._long).getD .vNull) args with
    | .error e => .error e
    | .ok v => .ok (objSet data f._long v)
  | none => .ok (objSet data f._long (.vBool true))

/-- The `Parser` class of the source.  The `ns` member (the Bitburner host
handle, used only for printing and exiting) is omitted; `name` holds the
already-resolved program name. -/
structure Parser where
  name : String
  description : String
  argsString : String
  exit : Bool
  flags : List Flag

/-- The `Parser` constructor: descriptions default to empty, `exit` to
`true`, and the flag list starts with the built-in help flag
`new Flag("help").shortOpt("h").action(…).forceExit(true).help("Print this message and exit")`. -/
def Parser.new (name : String) : Parser :=
  { name := name, description := "", argsString := "", exit := true,
    flags := [(((Flag.new "help" none).shortOpt "h").forceExit true).help
                (some "Print this message and exit")] }

/-- `Parser.flag(name)` followed by a chain of builder calls: the source
pushes `new Flag(name, null)` and returns it for chaining, the chained
setters mutating the stored object; here the chain is the function `conf`
applied to the new flag before it is appended. -/
def Parser.flag (p : Parser) (name : String) (conf : Flag → Flag) : Parser :=
  { p with flags := p.flags ++ [conf (Flag.new name none)] }

/-- `Parser.string(name)` with its builder chain, as in `Parser.flag`. -/
def Parser.string (p : Parser) (name : String) (conf : Flag → Flag) : Parser :=
  { p with flags := p.flags ++ [conf (Flag.new name (some .stringP))] }

/-- `Parser.number(name)` with its builder chain, as in `Parser.flag`. -/
def Parser.number (p : Parser) (name : String) (conf : Flag → Flag) : Parser :=
  { p with flags := p.flags ++ [conf (Flag.new name (some .numberP))] }

/-- `Parser.integer(name)` with its builder chain, as in `Parser.flag`. -/
def Parser.integer (p : Parser) (name : String) (conf : Flag → Flag) : Parser :=
  { p with flags := p.flags ++ [conf (Flag.new name (some .integerP))] }

/-- `Parser.counter(name)` with its builder chain, as in `Parser.flag`. -/
def Parser.counter (p : Parser) (name : String) (conf : Flag → Flag) : Parser :=
  { p with flags := p.flags ++ [conf (Flag.new name (some .counterP))] }

/-- The result object of `parseRaw`:
`{exit: boolean, flags: Object<string,any>, args: (string|number|boolean)[]}`. -/
structure ParseResult where
  exit : Bool
  flags : List (String × JSVal)
  args : List Arg
deriving DecidableEq, Repr

/-- JavaScript `s.startsWith(pre)`. -/
def strStartsWith (s pre : String) : Bool :=
  s.data.take pre.data.length == pre.data

/-- Index of the last occurrence of `c`, as in JavaScript `lastIndexOf`
(`none` for the `-1` not-found result). -/
def lastIdxOf (c : Char) : List Char → Option Nat
  | [] => none
  | x :: xs =>
    match lastIdxOf c xs with
    | some n => some (n + 1)
    | none => if x = c then some 0 else none

/-- Take `n` argument tokens from the remaining input, string-normalizing
each (`args[i+1+j].toString()`); `none` models the source length check
`i + 1 + nargs - extra > args.length` failing. -/
def takeArgs (n : Nat) (l : List Arg) : Option (List String × List Arg) :=
  if n ≤ l.length then some ((l.take n).map Arg.toString, l.drop n) else none

/-- The inner `while(j < arg.length)` loop of `parseRaw` scanning a cluster
of short options.  `chars` is the remainder of the token after the leading
`-`; `rest` is the input after the current token.  Returns `none` inside
`ok` when a force-exit flag was matched (the source returns the early-exit
object from inside the loop), otherwise the updated data object and the
remaining input.  A flag of positive arity with characters still attached
takes the entire remainder of the token as its first value and ends the
cluster scan (the source sets `j = arg.length`). -/
def shortLoop (sflags : List (Char × Flag)) :
    List (String × JSVal) → List Char → List Arg →
    Except ParseError (Option (List (String × JSVal) × List Arg))
  | fv, [], rest => .ok (some (fv, rest))
  | fv, c :: cs, rest =>
    match objGet? sflags c with
    | none => .error (.unknownShort c)
    | some flag =>
      if flag.args > 0 then
        match cs with
        | [] =>
          match takeArgs flag.args rest with
          | none => .error (.tooFewArgs flag._long)
          | some (vals, rest') =>
            match flag.accumulate fv vals with
            | .error e => .error e
            | .ok fv' =>
              if flag._forceExit then .ok none else .ok (some (fv', rest'))
        | _ :: _ =>
          match takeArgs (flag.args - 1) rest with
          | none => .error (.tooFewArgs flag._long)
          | some (vals, rest') =>
            match flag.accumulate fv (String.mk cs :: vals) with
            | .error e => .error e
            | .ok fv' =>
              if flag._forceExit then .ok none else .ok (some (fv', rest'))
      else
        match flag.accumulate fv [] with
        | .error e => .error e
        | .ok fv' =>
          if flag._forceExit then .ok none else shortLoop sflags fv' cs rest

/-- The long-option block of the scan loop (the body executed when the
token starts with `--` and is not exactly `--`).  The token is split at
the last `=` if any (`=` cannot occur at index 0 or 1 because the token
starts with `--`, so `substring(2, e)` is drop 2 / take (e - 2)); the name
is looked up, the required values are collected — a fused `=value` counts
as the first — and the flag accumulates them.  Returns `none` inside `ok`
when a force-exit flag was matched (the source returns the early-exit
object from inside the loop), otherwise the updated data object and the
remaining input.  On a zero-arity flag any fused `=value` is silently
ignored. -/
def longStep (lflags : List (String × Flag)) (fv : List (String × JSVal)) (arg : String)
    (rest : List Arg) : Except ParseError (Option (List (String × JSVal) × List Arg)) :=
  let split : String × Option String :=
    match lastIdxOf '=' arg.data with
    | none => (⟨arg.data.drop 2⟩, none)
    | some e => (⟨(arg.data.drop 2).take (e - 2)⟩, some ⟨arg.data.drop (e + 1)⟩)
  match objGet? lflags split.1 with
  | none => .error (.unknownLong split.1)
  | some flag =>
    if flag.args > 0 then
      let extra := match split.2 with | some _ => 1 | none => 0
      match takeArgs (flag.args - extra) rest with
      | none => .error (.tooFewArgs split.1)
      | some (vals, rest') =>
        match flag.accumulate fv ((match split.2 with
            | some d => [d] | none => []) ++ vals) with
        | .error e => .error e
        | .ok fv' =>
          if flag._forceExit then .ok none else .ok (some (fv', rest'))
    else
      match flag.accumulate fv [] with
      | .error e => .error e
      | .ok fv' =>
        if flag._forceExit then .ok none else .ok (some (fv', rest))

/-- The main `while(i < args.length)` loop of `parseRaw`, embedded with a
fuel parameter standing for the loop guard: every iteration consumes at
least one input token, so the `length + 1` fuel supplied by `parseRaw`
can never run out and the `outOfFuel` branch is unreachable (see
`parseLoop_no_outOfFuel`).  `fv` is the accumulated flag data, `pos` the
positional arguments collected so far. -/
def parseLoop (sflags : List (Char × Flag)) (lflags : List (String × Flag)) :
    Nat → List (String × JSVal) → List Arg → List Arg → Except ParseError ParseResult
  | 0, _, _, _ => .error .outOfFuel
  | _ + 1, fv, pos, [] => .ok ⟨false, fv, pos⟩
  | fuel + 1, fv, pos, t :: rest =>
    let arg := t.toString
    if arg = "--" then
      -- every remaining token is pushed in its original, un-normalized form
      .ok ⟨false, fv, pos ++ rest⟩
    else if strStartsWith arg "--" then
      match longStep lflags fv arg rest with
      | .error e => .error e
      | .ok none => .ok ⟨true, [], []⟩
      | .ok (some (fv', rest')) => parseLoop sflags lflags fuel fv' pos rest'
    else if strStartsWith arg "-" then
      match shortLoop sflags fv (arg.data.drop 1) rest with
      | .error e => .error e
      | .ok none => .ok ⟨true, [], []⟩
      | .ok (some (fv', rest')) => parseLoop sflags lflags fuel fv' pos rest'
    else
      -- positional: the source pushes `arg`, the string-normalized token
      parseLoop sflags lflags fuel fv (pos ++ [.str arg]) rest

/-- The initial flag data object built at the top of `parseRaw`:
`flagValues[f._long] = f.initialValue()` for each registered flag, in
registration order. -/
def Parser.initMap (p : Parser) : List (String × JSVal) :=
  p.flags.foldl (fun m f => objSet m f._long f.initialValue) []

/-- The short-alias lookup map built at the top of `parseRaw`. -/
def Parser.sflagsMap (p : Parser) : List (Char × Flag) :=
  p.flags.foldl (fun m f => match f._short with | some c => objSet m c f | none => m) []

/-- The long-name lookup map built at the top of `parseRaw`. -/
def Parser.lflagsMap (p : Parser) : List (String × Flag) :=
  p.flags.foldl (fun m f => objSet m f._long f) []

/-- `Parser.parseRaw(args)`: build the three maps and run the scan loop. -/
def Parser.parseRaw (p : Parser) (args : List Arg) : Except ParseError ParseResult :=
  parseLoop p.sflagsMap p.lflagsMap (args.length + 1) p.initMap [] args

/-! Engine fixtures used by the claim theorems.  Each is a `Parser` built
through the registration API exactly as a repository script would. -/

/-- An engine with a single string flag `path` (arity 1). -/
def engPath : Parser := (Parser.new "prog").string "path" id

/-- An engine with a single Number flag `num` (arity 1). -/
def engNum : Parser := (Parser.new "prog").number "num" id

/-- An engine with an Integer flag `port` with short alias `p`. -/
def engPort : Parser := (Parser.new "prog").integer "port" (fun f => f.shortOpt "p")

/-- An engine with a single boolean (arity 0) flag `verbose`. -/
def engVerbose : Parser := (Parser.new "prog").flag "verbose" id

/-- An engine with a boolean flag `verbose` aliased `v` and a string flag
`path` aliased `p`. -/
def engCluster : Parser :=
  ((Parser.new "prog").flag "verbose" (fun f => f.shortOpt "v")).string "path"
    (fun f => f.shortOpt "p")

/-- An engine in which the long name `port` is registered twice, first as an
Integer flag and then as a String flag. -/
def engDupPort : Parser :=
  ((Parser.new "prog").integer "port" id).string "port" id

/-- C1, counterexample.  The claim says parsing `--path=a=b` against a
registered long name `path` of arity 1 binds `values["path"]` to `"a=b"`.
It does not: `parseRaw` splits at the last `=`, so the looked-up option
name is `path=a`, which is unregistered, and the parse fails with the
unknown-long-option error instead of succeeding. -/
theorem c1_counterexample :
    engPath.parseRaw [Arg.str "--path=a=b"] = .error (.unknownLong "path=a") := rfl

/-- C7.  Parsing `["--port=8080"]` and `["-p", "8080"]` against an engine
with an Integer flag `port` aliased `p` produce identical results, with
`values["port"] = 8080`. -/
theorem c7_long_short_equivalent :
    engPort.parseRaw [Arg.str "--port=8080"] = engPort.parseRaw [Arg.str "-p", Arg.str "8080"] ∧
    engPort.parseRaw [Arg.str "--port=8080"] =
      .ok ⟨false, [("help", .vBool false), ("port", .vNum (.val 8080))], []⟩ :=
  ⟨rfl, rfl⟩

/-- C8.  Behavior of the code at the failing input `--verbose=x` with
`verbose` a registered boolean (arity 0) flag: the spec requires the fused
`=value` on a zero-arity flag to be rejected as a usage error at match
time, but `parseRaw` matches the flag, sets it to `true`, and silently
discards the fused value `x`, returning success. -/
theorem c8_fused_value_on_zero_arity_accepted :
    engVerbose.parseRaw [Arg.str "--verbose=x"] =
      .ok ⟨false, [("help", .vBool false), ("verbose", .vBool true)], []⟩ := rfl

/-- C2, counterexample.  The claim says `--num abc` against a Number flag
`num` fails with a TypeCoercionError naming the token `abc`.  It does not
fail: `parseFloat` returns `NaN` on non-numeric text, so the parse succeeds
and binds `values["num"]` to `NaN`. -/
theorem c2_counterexample :
    engNum.parseRaw [Arg.str "--num", Arg.str "abc"] =
      .ok ⟨false, [("help", .vBool false), ("num", .vNum .nan)], []⟩ := rfl

/-- C2, amended.  The Number and Integer value parsers fail only when the
single raw token is empty (the generic `missing accumulate value` error,
which does not carry the token); any non-empty token is handed to
`parseFloat`/`parseInt`, so non-numeric text such as `abc` is accepted and
produces `NaN`, and `--num abc` succeeds with `values["num"] = NaN`. -/
theorem c2_accumulate_empty_or_nan :
    (∀ cur, FlagArgParser.numberP.accumulate cur [""] = .error .missingAccumulate) ∧
    (∀ cur, FlagArgParser.integerP.accumulate cur [""] = .error .missingAccumulate) ∧
    (∀ cur, FlagArgParser.numberP.accumulate cur ["abc"] = .ok (.vNum .nan)) ∧
    (∀ cur, FlagArgParser.integerP.accumulate cur ["abc"] = .ok (.vNum .nan)) ∧
    engNum.parseRaw [Arg.str "--num", Arg.str "abc"] =
      .ok ⟨false, [("help", .vBool false), ("num", .vNum .nan)], []⟩ :=
  ⟨fun _ => rfl, fun _ => rfl, fun _ => rfl, fun _ => rfl, rfl⟩

/-- C9, counterexample.  The claim says a positional token that arrived as
a number appears in `positionals` in its original numeric form even before
the `--` sentinel.  It does not: the scan loop pushes `arg`, the
string-normalized token, so the numeric token `42` comes back as the
string `"42"`. -/
theorem c9_counterexample :
    (Parser.new "prog").parseRaw [Arg.num 42] =
      .ok ⟨false, [("help", .vBool false)], [Arg.str "42"]⟩ ∧
    Arg.str "42" ≠ Arg.num 42 :=
  ⟨rfl, by decide⟩

/-- C9, amended.  Positional tokens scanned before the `--` sentinel are
appended in string-normalized form (the numeric token `42` becomes the
string `"42"`, the boolean token `true` the string `"true"`); only the
tokens after `--` are appended in their original form. -/
theorem c9_positionals_normalized :
    (Parser.new "prog").parseRaw [Arg.num 42] =
      .ok ⟨false, [("help", .vBool false)], [Arg.str "42"]⟩ ∧
    (Parser.new "prog").parseRaw [Arg.bool true] =
      .ok ⟨false, [("help", .vBool false)], [Arg.str "true"]⟩ ∧
    (Parser.new "prog").parseRaw [Arg.str "--", Arg.num 42, Arg.bool true] =
      .ok ⟨false, [("help", .vBool false)], [Arg.num 42, Arg.bool true]⟩ :=
  ⟨rfl, rfl, rfl⟩

/-- C10.  `Flag.shortOpt` clears the alias on the empty string, otherwise
sets it to exactly the first character of the argument (silently truncating
a multi-character argument); every other field of the flag is unchanged,
which is the data-level content of the source returning the same mutated
instance for chaining. -/
theorem c10_shortOpt :
    (∀ f : Flag, f.shortOpt "" = { f with _short := none }) ∧
    (∀ (f : Flag) (c : Char) (cs : List Char),
        f.shortOpt ⟨c :: cs⟩ = { f with _short := some c }) :=
  ⟨fun _ => rfl, fun _ _ _ => rfl⟩

/-- C4.  Matching the built-in terminate-on-match help flag — via `-h` or
`--help`, at position 0 or after a positional — returns the early-exit
result with empty values and positionals and never inspects any later
token: the result is the same for every suffix `rest`, including suffixes
that would otherwise raise an unknown-option error. -/
theorem c4_terminate_short_circuits (rest : List Arg) :
    (Parser.new "prog").parseRaw (Arg.str "-h" :: rest) = .ok ⟨true, [], []⟩ ∧
    (Parser.new "prog").parseRaw (Arg.str "--help" :: rest) = .ok ⟨true, [], []⟩ ∧
    (Parser.new "prog").parseRaw (Arg.str "pos" :: Arg.str "-h" :: rest) =
      .ok ⟨true, [], []⟩ :=
  ⟨rfl, rfl, rfl⟩

/-- C3, counterexample.  The claim says registering a duplicate long name
(including the built-in `help`), an empty long name, or a duplicate short
alias fails with a RegistrationError before any parse call.  Registration
never fails: `Parser.flag` appends unconditionally, so the duplicate,
empty-name and duplicate-alias registrations below are all accepted, and a
subsequent parse also raises no error. -/
theorem c3_counterexample :
    ((Parser.new "prog").flag "help" id).flags.map Flag._long = ["help", "help"] ∧
    ((Parser.new "prog").flag "" id).flags.map Flag._long = ["help", ""] ∧
    ((Parser.new "prog").flag "silent" (fun f => f.shortOpt "h")).flags.map Flag._short
      = [some 'h', some 'h'] ∧
    ((Parser.new "prog").flag "help" id).parseRaw []
      = .ok ⟨false, [("help", .vBool false)], []⟩ :=
  ⟨rfl, rfl, rfl, rfl⟩

/-- C3, amended.  Registration performs no validation at all: every call
appends a flag to the registry unconditionally, whatever its long name or
alias.  Clashes surface only implicitly at parse time, where the lookup
maps are built in registration order and the most recently registered flag
shadows earlier ones: with `port` registered first as Integer and then as
String, `--port 16` is parsed by the String flag. -/
theorem c3_registration_unchecked :
    (∀ (p : Parser) (name : String) (conf : Flag → Flag),
        (p.flag name conf).flags = p.flags ++ [conf (Flag.new name none)]) ∧
    engDupPort.parseRaw [Arg.str "--port", Arg.str "16"] =
      .ok ⟨false, [("help", .vBool false), ("port", .vStr "16")], []⟩ :=
  ⟨fun _ _ _ => rfl, rfl⟩

/-- A character that does not occur in a list has no last index in it. -/
theorem lastIdxOf_eq_none (c : Char) (l : List Char) (h : c ∉ l) : lastIdxOf c l = none := by
  induction l with
  | nil => rfl
  | cons x xs ih =>
    simp only [List.mem_cons, not_or] at h
    simp [lastIdxOf, ih h.2, Ne.symm h.1]

/-- The last index of `c` in `l1 ++ c :: l2` is `l1.length` whenever `c`
does not occur in `l2`: the split really happens at the last occurrence. -/
theorem lastIdxOf_last_split (l1 l2 : List Char) (h : '=' ∉ l2) :
    lastIdxOf '=' (l1 ++ '=' :: l2) = some l1.length := by
  induction l1 with
  | nil => simp [lastIdxOf, lastIdxOf_eq_none '=' l2 h]
  | cons x xs ih => simp [lastIdxOf, ih]

/-- C1, amended.  The long-option split really uses the last `=` of the
token (`lastIdxOf_last_split`), so it is the option name, not the value,
that can absorb an embedded `=`: for every `=`-free value `v`,
`--path=<v>` binds `values["path"]` to `v`, while `--path=a=b` looks up
the unregistered name `path=a` and fails with the unknown-long-option
error instead of binding `"a=b"`. -/
theorem c1_last_equals_split (v : String) (h : '=' ∉ v.data) :
    engPath.parseRaw [Arg.str ("--path=" ++ v)] =
      .ok ⟨false, [("help", .vBool false), ("path", .vStr v)], []⟩ ∧
    engPath.parseRaw [Arg.str "--path=a=b"] = .error (.unknownLong "path=a") := by
  refine ⟨?_, rfl⟩
  obtain ⟨d⟩ := v
  have h6 : lastIdxOf '=' ('-' :: '-' :: 'p' :: 'a' :: 't' :: 'h' :: '=' :: d) = some 6 := by
    simpa using lastIdxOf_last_split ['-','-','p','a','t','h'] d h
  show parseLoop engPath.sflagsMap engPath.lflagsMap 2 engPath.initMap []
      [Arg.str ⟨'-' :: '-' :: 'p' :: 'a' :: 't' :: 'h' :: '=' :: d⟩] = _
  simp only [parseLoop, Arg.toString, longStep]
  rw [h6]
  rfl

/-- C1, witness for `c1_last_equals_split` at the value `a`. -/
theorem c1_last_equals_split_witness :
    ('=' ∉ ("a" : String).data) ∧
    (engPath.parseRaw [Arg.str ("--path=" ++ "a")] =
      .ok ⟨false, [("help", .vBool false), ("path", .vStr "a")], []⟩ ∧
     engPath.parseRaw [Arg.str "--path=a=b"] = .error (.unknownLong "path=a")) :=
  ⟨by decide, c1_last_equals_split "a" (by decide)⟩

/-- C6.  A short-option cluster stops consuming short flags the moment it
reaches a flag of positive arity with characters still attached: in
`-vp<s>` (any non-empty remainder `s`), `v` (arity 0) is matched, the
whole remainder `s` becomes the value of `p` (arity 1), and no character
of `s` is ever interpreted as an option — the parse succeeds for every
`s`, even ones made of unregistered option characters. -/
theorem c6_cluster_remainder_value (s : String) (h : s ≠ "") :
    engCluster.parseRaw [Arg.str ("-vp" ++ s)] =
      .ok ⟨false, [("help", .vBool false), ("verbose", .vBool true), ("path", .vStr s)], []⟩ := by
  obtain ⟨d⟩ := s
  match d with
  | [] => exact absurd rfl h
  | c :: cs => rfl

/-- C6, witness for `c6_cluster_remainder_value` at the remainder `8080`:
`-vp8080` matches `v` and binds `path` (alias `p`) to the string `8080`. -/
theorem c6_cluster_remainder_value_witness :
    (("8080" : String) ≠ "") ∧
    engCluster.parseRaw [Arg.str ("-vp" ++ "8080")] =
      .ok ⟨false, [("help", .vBool false), ("verbose", .vBool true), ("path", .vStr "8080")],
        []⟩ :=
  ⟨by decide, c6_cluster_remainder_value "8080" (by decide)⟩

theorem objGet?_objSet {κ α : Type} [DecidableEq κ] (m : List (κ × α)) (k : κ) (v : α) (q : κ) :
    objGet? (objSet m k v) q = if q = k then some v else objGet? m q := by
  induction m with
  | nil =>
    by_cases h : q = k
    · simp [objSet, objGet?, h]
    · have h2 : ¬ (k = q) := fun hh => h hh.symm
      simp [objSet, objGet?, h, h2]
  | cons hd tl ih =>
    obtain ⟨k2, v2⟩ := hd
    by_cases hk : k2 = k
    · subst hk
      by_cases hq : q = k2
      · simp [objSet, objGet?, hq]
      · have hq2 : ¬ (k2 = q) := fun hh => hq hh.symm
        simp [objSet, objGet?, hq, hq2]
    · by_cases hq : k2 = q
      · have hqk : ¬ (q = k) := fun hh => hk (hq.trans hh)
        simp [objSet, objGet?, hk, hq, hqk]
      · simp [objSet, objGet?, hk, hq, ih]

theorem Flag.accumulate_ok (f : Flag) (fv fv' : List (String × JSVal)) (as : List String)
    (h : f.accumulate fv as = .ok fv') :
    ∃ v, fv' = objSet fv f._long v := by
  unfold Flag.accumulate at h
  split at h
  · split at h
    · simp at h
    · injection h with h
      exact ⟨_, h.symm⟩
  · injection h with h
    exact ⟨_, h.symm⟩

theorem Flag.accumulate_isSome (f : Flag) (fv fv' : List (String × JSVal)) (as : List String)
    (h : f.accumulate fv as = .ok fv') (k : String) (hk : (objGet? fv k).isSome) :
    (objGet? fv' k).isSome := by
  obtain ⟨v, rfl⟩ := f.accumulate_ok fv fv' as h
  rw [objGet?_objSet]
  split
  · simp
  · exact hk

theorem shortLoop_isSome (sf : List (Char × Flag)) (cs : List Char) :
    ∀ (fv : List (String × JSVal)) (rest : List Arg) fv' rest',
      shortLoop sf fv cs rest = .ok (some (fv', rest')) →
      ∀ k, (objGet? fv k).isSome → (objGet? fv' k).isSome := by
  induction cs with
  | nil =>
    intro fv rest fv' rest' h k hk
    unfold shortLoop at h
    simp only [Except.ok.injEq, Option.some.injEq, Prod.mk.injEq] at h
    obtain ⟨h1, h2⟩ := h
    subst h1
    exact hk
  | cons c cs ih =>
    intro fv rest fv' rest' h k hk
    unfold shortLoop at h
    split at h
    · simp at h
    · rename_i flag hflag
      split at h
      · split at h
        · split at h
          · simp at h
          · split at h
            · simp at h
            · rename_i fv2 hacc
              split at h
              · simp at h
              · simp only [Except.ok.injEq, Option.some.injEq, Prod.mk.injEq] at h
                obtain ⟨h1, h2⟩ := h
                subst h1
                exact flag.accumulate_isSome fv _ _ hacc k hk
        · split at h
          · simp at h
          · split at h
            · simp at h
            · rename_i fv2 hacc
              split at h
              · simp at h
              · simp only [Except.ok.injEq, Option.some.injEq, Prod.mk.injEq] at h
                obtain ⟨h1, h2⟩ := h
                subst h1
                exact flag.accumulate_isSome fv _ _ hacc k hk
      · split at h
        · simp at h
        · rename_i fv2 hacc
          split at h
          · simp at h
          · exact ih _ rest fv' rest' h k (flag.accumulate_isSome fv _ _ hacc k hk)

theorem longStep_isSome (lf : List (String × Flag)) (fv : List (String × JSVal))
    (arg : String) (rest : List Arg) (fv' : List (String × JSVal)) (rest' : List Arg)
    (h : longStep lf fv arg rest = .ok (some (fv', rest')))
    (k : String) (hk : (objGet? fv k).isSome) : (objGet? fv' k).isSome := by
  unfold longStep at h
  split at h <;>
    (simp only [] at h
     split at h
     · simp at h
     · rename_i flag hflag
       split at h
       · split at h
         · simp at h
         · split at h
           · simp at h
           · rename_i fv2 hacc
             split at h
             · simp at h
             · simp only [Except.ok.injEq, Option.some.injEq, Prod.mk.injEq] at h
               obtain ⟨h1, h2⟩ := h
               subst h1
               exact flag.accumulate_isSome fv _ _ hacc k hk
       · split at h
         · simp at h
         · rename_i fv2 hacc
           split at h
           · simp at h
           · simp only [Except.ok.injEq, Option.some.injEq, Prod.mk.injEq] at h
             obtain ⟨h1, h2⟩ := h
             subst h1
             exact flag.accumulate_isSome fv _ _ hacc k hk)

theorem parseLoop_isSome (sf : List (Char × Flag)) (lf : List (String × Flag)) (fuel : Nat) :
    ∀ (toks : List Arg) (fv : List (String × JSVal)) (pos : List Arg) (r : ParseResult),
      parseLoop sf lf fuel fv pos toks = .ok r → r.exit = false →
      ∀ k, (objGet? fv k).isSome → (objGet? r.flags k).isSome := by
  induction fuel with
  | zero =>
    intro toks fv pos r h
    unfold parseLoop at h
    simp at h
  | succ n ih =>
    intro toks fv pos r h hexit k hk
    match toks with
    | [] =>
      unfold parseLoop at h
      injection h with h
      subst h
      exact hk
    | t :: rest =>
      unfold parseLoop at h
      simp only [] at h
      split at h
      · injection h with h
        subst h
        exact hk
      · split at h
        · split at h
          · simp at h
          · injection h with h
            subst h
            simp at hexit
          · rename_i fv2 rest2 hlong
            exact ih rest2 fv2 pos r h hexit k (longStep_isSome lf fv _ rest fv2 rest2 hlong k hk)
        · split at h
          · split at h
            · simp at h
            · injection h with h
              subst h
              simp at hexit
            · rename_i fv2 rest2 hshort
              exact ih rest2 fv2 pos r h hexit k
                (shortLoop_isSome sf _ fv rest fv2 rest2 hshort k hk)
          · exact ih rest fv _ r h hexit k hk

theorem takeArgs_length (n : Nat) (l : List Arg) (vals : List String) (rest' : List Arg)
    (h : takeArgs n l = some (vals, rest')) : rest'.length ≤ l.length := by
  unfold takeArgs at h
  split at h
  · simp only [Option.some.injEq, Prod.mk.injEq] at h
    obtain ⟨h1, h2⟩ := h
    subst h2
    simp
  · simp at h

theorem longStep_length (lf : List (String × Flag)) (fv : List (String × JSVal))
    (arg : String) (rest : List Arg) (fv' : List (String × JSVal)) (rest' : List Arg)
    (h : longStep lf fv arg rest = .ok (some (fv', rest'))) : rest'.length ≤ rest.length := by
  unfold longStep at h
  split at h <;>
    (simp only [] at h
     split at h
     · simp at h
     · rename_i flag hflag
       split at h
       · split at h
         · simp at h
         · rename_i vals rest2 htake
           split at h
           · simp at h
           · split at h
             · simp at h
             · simp only [Except.ok.injEq, Option.some.injEq, Prod.mk.injEq] at h
               obtain ⟨h1, h2⟩ := h
               subst h2
               exact takeArgs_length _ rest vals _ htake
       · split at h
         · simp at h
         · split at h
           · simp at h
           · simp only [Except.ok.injEq, Option.some.injEq, Prod.mk.injEq] at h
             obtain ⟨h1, h2⟩ := h
             subst h2
             exact le_refl _)

theorem shortLoop_length (sf : List (Char × Flag)) (cs : List Char) :
    ∀ (fv : List (String × JSVal)) (rest : List Arg) fv' rest',
      shortLoop sf fv cs rest = .ok (some (fv', rest')) → rest'.length ≤ rest.length := by
  induction cs with
  | nil =>
    intro fv rest fv' rest' h
    unfold shortLoop at h
    simp only [Except.ok.injEq, Option.some.injEq, Prod.mk.injEq] at h
    obtain ⟨h1, h2⟩ := h
    subst h2
    exact le_refl _
  | cons c cs ih =>
    intro fv rest fv' rest' h
    unfold shortLoop at h
    split at h
    · simp at h
    · rename_i flag hflag
      split at h
      · split at h
        · split at h
          · simp at h
          · rename_i vals rest2 htake
            split at h
            · simp at h
            · split at h
              · simp at h
              · simp only [Except.ok.injEq, Option.some.injEq, Prod.mk.injEq] at h
                obtain ⟨h1, h2⟩ := h
                subst h2
                exact takeArgs_length _ rest vals _ htake
        · split at h
          · simp at h
          · rename_i vals rest2 htake
            split at h
            · simp at h
            · split at h
              · simp at h
              · simp only [Except.ok.injEq, Option.some.injEq, Prod.mk.injEq] at h
                obtain ⟨h1, h2⟩ := h
                subst h2
                exact takeArgs_length _ rest vals _ htake
      · split at h
        · simp at h
        · split at h
          · simp at h
          · exact ih _ rest fv' rest' h

theorem FlagArgParser.accumulate_error (p : FlagArgParser) (cur : JSVal) (as : List String)
    (e : ParseError) (h : p.accumulate cur as = .error e) : e = .missingAccumulate := by
  unfold FlagArgParser.accumulate at h
  split at h
  · simp at h
  · split at h
    · injection h with h
      exact h.symm
    · split at h
      · injection h with h
        exact h.symm
      · simp at h
  · split at h
    · injection h with h
      exact h.symm
    · split at h
      · injection h with h
        exact h.symm
      · simp at h
  · simp at h

theorem Flag.accumulate_errorKind (f : Flag) (fv : List (String × JSVal)) (as : List String)
    (e : ParseError) (h : f.accumulate fv as = .error e) : e = .missingAccumulate := by
  unfold Flag.accumulate at h
  split at h
  · rename_i p hp
    split at h
    · rename_i e2 herr
      injection h with h
      subst h
      exact p.accumulate_error _ as e2 herr
    · simp at h
  · simp at h

theorem shortLoop_error (sf : List (Char × Flag)) (cs : List Char) :
    ∀ (fv : List (String × JSVal)) (rest : List Arg) (e : ParseError),
      shortLoop sf fv cs rest = .error e → e ≠ .outOfFuel := by
  induction cs with
  | nil =>
    intro fv rest e h
    unfold shortLoop at h
    simp at h
  | cons c cs ih =>
    intro fv rest e h
    unfold shortLoop at h
    split at h
    · injection h with h
      subst h
      simp
    · rename_i flag hflag
      split at h
      · split at h
        · split at h
          · injection h with h
            subst h
            simp
          · split at h
            · rename_i e2 herr
              injection h with h
              subst h
              rw [flag.accumulate_errorKind _ _ _ herr]
              simp
            · split at h <;> simp at h
        · split at h
          · injection h with h
            subst h
            simp
          · split at h
            · rename_i e2 herr
              injection h with h
              subst h
              rw [flag.accumulate_errorKind _ _ _ herr]
              simp
            · split at h <;> simp at h
      · split at h
        · rename_i e2 herr
          injection h with h
          subst h
          rw [flag.accumulate_errorKind _ _ _ herr]
          simp
        · split at h
          · simp at h
          · exact ih _ rest e h

theorem longStep_error (lf : List (String × Flag)) (fv : List (String × JSVal))
    (arg : String) (rest : List Arg) (e : ParseError)
    (h : longStep lf fv arg rest = .error e) : e ≠ .outOfFuel := by
  unfold longStep at h
  split at h <;>
    (simp only [] at h
     split at h
     · injection h with h
       subst h
       simp
     · rename_i flag hflag
       split at h
       · split at h
         · injection h with h
           subst h
           simp
         · split at h
           · rename_i e2 herr
             injection h with h
             subst h
             rw [flag.accumulate_errorKind _ _ _ herr]
             simp
           · split at h <;> simp at h
       · split at h
         · rename_i e2 herr
           injection h with h
           subst h
           rw [flag.accumulate_errorKind _ _ _ herr]
           simp
         · split at h <;> simp at h)

theorem parseLoop_no_outOfFuel (sf : List (Char × Flag)) (lf : List (String × Flag))
    (fuel : Nat) :
    ∀ (toks : List Arg) (fv : List (String × JSVal)) (pos : List Arg),
      toks.length < fuel → parseLoop sf lf fuel fv pos toks ≠ .error .outOfFuel := by
  induction fuel with
  | zero =>
    intro toks fv pos hlen
    omega
  | succ n ih =>
    intro toks fv pos hlen
    match toks with
    | [] =>
      unfold parseLoop
      simp
    | t :: rest =>
      have hrest : rest.length < n := by simpa using hlen
      unfold parseLoop
      simp only []
      split
      · simp
      · split
        · split
          · rename_i e2 herr
            intro hcontra
            injection hcontra with hcontra
            exact longStep_error lf fv _ rest e2 herr (by rw [hcontra])
          · simp
          · rename_i fv2 rest2 hlong
            exact ih rest2 fv2 pos
              (lt_of_le_of_lt (longStep_length lf fv _ rest fv2 rest2 hlong) hrest)
        · split
          · split
            · rename_i e2 herr
              intro hcontra
              injection hcontra with hcontra
              exact shortLoop_error sf _ fv rest e2 herr (by rw [hcontra])
            · simp
            · rename_i fv2 rest2 hshort
              exact ih rest2 fv2 pos
                (lt_of_le_of_lt (shortLoop_length sf _ fv rest fv2 rest2 hshort) hrest)
          · exact ih rest fv _ hrest

theorem strStartsWith_ddash (s : String) (h : strStartsWith s "-" = false) :
    strStartsWith s "--" = false := by
  unfold strStartsWith at *
  by_contra hc
  rw [Bool.not_eq_false, beq_iff_eq] at hc
  have h1 : s.data.take 1 = ['-'] := by
    have := congrArg (List.take 1) hc
    simpa [List.take_take] using this
  rw [show ("-" : String).data.length = 1 from rfl, h1] at h
  simp at h

theorem ne_ddash (s : String) (h : strStartsWith s "-" = false) : s ≠ "--" := by
  intro he
  subst he
  exact absurd h (by decide)

theorem parseLoop_plain (sf : List (Char × Flag)) (lf : List (String × Flag))
    (args : List Arg) :
    ∀ (fuel : Nat) (fv : List (String × JSVal)) (pos : List Arg),
      args.length < fuel → (∀ a ∈ args, strStartsWith a.toString "-" = false) →
      parseLoop sf lf fuel fv pos args =
        .ok ⟨false, fv, pos ++ args.map (fun a => Arg.str a.toString)⟩ := by
  induction args with
  | nil =>
    intro fuel fv pos hlen hplain
    match fuel, hlen with
    | n + 1, _ =>
      unfold parseLoop
      simp
  | cons t rest ih =>
    intro fuel fv pos hlen hplain
    match fuel, hlen with
    | n + 1, hlen =>
      have ht := hplain t (by simp)
      have hne : t.toString ≠ "--" := ne_ddash _ ht
      have hdd : strStartsWith t.toString "--" = false := strStartsWith_ddash _ ht
      unfold parseLoop
      simp only [hne, hdd, ht, if_false, Bool.false_eq_true]
      rw [ih n fv (pos ++ [Arg.str t.toString]) (by simpa using hlen)
        (fun a ha => hplain a (List.mem_cons_of_mem t ha))]
      simp

theorem initFold_isSome (l : List Flag) :
    ∀ (m : List (String × JSVal)) (k : String),
      ((∃ f ∈ l, f._long = k) ∨ (objGet? m k).isSome) →
      (objGet? (l.foldl (fun m f => objSet m f._long f.initialValue) m) k).isSome := by
  induction l with
  | nil =>
    intro m k h
    rcases h with ⟨f, hf, _⟩ | hm
    · simp at hf
    · simpa using hm
  | cons g gs ih =>
    intro m k h
    simp only [List.foldl_cons]
    apply ih
    rcases h with ⟨f, hf, hk⟩ | hm
    · rcases List.mem_cons.mp hf with rfl | hfs
      · right
        rw [objGet?_objSet]
        simp [hk.symm]
      · exact .inl ⟨f, hfs, hk⟩
    · right
      rw [objGet?_objSet]
      split <;> simp [hm]

theorem initFold_notMem (l : List Flag) :
    ∀ (m : List (String × JSVal)) (k : String), k ∉ l.map Flag._long →
      objGet? (l.foldl (fun m f => objSet m f._long f.initialValue) m) k = objGet? m k := by
  induction l with
  | nil => intro m k _; rfl
  | cons g gs ih =>
    intro m k h
    simp only [List.map_cons, List.mem_cons, not_or] at h
    simp only [List.foldl_cons]
    rw [ih _ k h.2, objGet?_objSet]
    simp [h.1]

theorem initFold_get (l : List Flag) :
    ∀ (m : List (String × JSVal)) (f : Flag), f ∈ l → (l.map Flag._long).Nodup →
      objGet? (l.foldl (fun m g => objSet m g._long g.initialValue) m) f._long
        = some f.initialValue := by
  induction l with
  | nil => intro m f hf _; simp at hf
  | cons g gs ih =>
    intro m f hf hn
    simp only [List.map_cons, List.nodup_cons] at hn
    rcases List.mem_cons.mp hf with rfl | hfs
    · simp only [List.foldl_cons]
      rw [initFold_notMem gs _ _ hn.1, objGet?_objSet]
      simp
    · exact ih _ f hfs hn.2

/-- C5.  For a valid registration (unique long names) the initial values
map produced at the top of `parseRaw` binds every registered long name to
that flag's `initialValue`; a parse in which no option is matched (every
token is a plain positional) returns exactly that map; and after any
successful non-early-exit parse whatsoever, the returned values map still
contains an entry for every registered long name. -/
theorem c5_initial_values (p : Parser) (args : List Arg)
    (hnodup : (p.flags.map Flag._long).Nodup)
    (hplain : ∀ a ∈ args, strStartsWith a.toString "-" = false) :
    p.parseRaw args = .ok ⟨false, p.initMap, args.map (fun a => Arg.str a.toString)⟩ ∧
    (∀ f ∈ p.flags, objGet? p.initMap f._long = some f.initialValue) ∧
    (∀ (args2 : List Arg) (r : ParseResult), p.parseRaw args2 = .ok r → r.exit = false →
      ∀ f ∈ p.flags, (objGet? r.flags f._long).isSome) := by
  refine ⟨?_, ?_, ?_⟩
  · have := parseLoop_plain p.sflagsMap p.lflagsMap args (args.length + 1) p.initMap []
      (Nat.lt_succ_self _) hplain
    simpa [Parser.parseRaw] using this
  · intro f hf
    exact initFold_get p.flags [] f hf hnodup
  · intro args2 r h hexit f hf
    exact parseLoop_isSome p.sflagsMap p.lflagsMap (args2.length + 1) args2 p.initMap [] r h
      hexit f._long (initFold_isSome p.flags [] f._long (.inl ⟨f, hf, rfl⟩))

/-- C5, witness for `c5_initial_values`: the engine with the Integer flag
`port`, on the positional-only input `["alpha", 7]`. -/
theorem c5_initial_values_witness :
    (((engPort.flags.map Flag._long).Nodup) ∧
      (∀ a ∈ ([Arg.str "alpha", Arg.num 7] : List Arg),
        strStartsWith a.toString "-" = false)) ∧
    (engPort.parseRaw [Arg.str "alpha", Arg.num 7] =
        .ok ⟨false, engPort.initMap,
          ([Arg.str "alpha", Arg.num 7] : List Arg).map (fun a => Arg.str a.toString)⟩ ∧
      (∀ f ∈ engPort.flags, objGet? engPort.initMap f._long = some f.initialValue) ∧
      (∀ (args2 : List Arg) (r : ParseResult), engPort.parseRaw args2 = .ok r →
        r.exit = false → ∀ f ∈ engPort.flags, (objGet? r.flags f._long).isSome)) :=
  ⟨⟨by decide, by decide⟩,
    c5_initial_values engPort [Arg.str "alpha", Arg.num 7] (by decide) (by decide)⟩

end Flags
